import Mathlib

/-!
Verification of the core rendering pipeline of the `toytracer` repository
(a Whitted-style recursive ray tracer written in Rust).

Shallow embedding conventions:
* `f64` is modelled by `ℚ` (exact arithmetic, total division with `q / 0 = 0`).
* The transcendental `f64` intrinsics (`sqrt`, `tan`, `powf`) are kept
  abstract in a `FloatOps` record; every theorem is quantified over it.
* Fallible operations (matrix inversion, buffer indexing) return
  `Except`/`Option`; a Rust panic is modelled by `Except.error`/`none`.
* The recursion limit `u16` is modelled by `Nat`.

The repository snapshot mixes two generations of some files; definitions
below follow the files present under `src/`.  The handful of functions whose
defining file is absent from the snapshot (only their callers are present)
are modelled from the specification and marked as such in their doc comment.
-/

namespace Toytracer

/-- Abstract interface for the `f64` intrinsic functions used by the tracer
(`f64::sqrt`, `f64::tan`, `f64::powf`).  Keeping them abstract makes every
theorem hold for any implementation of the intrinsics. -/
structure FloatOps where
  sqrt : ℚ → ℚ
  tan : ℚ → ℚ
  powf : ℚ → ℚ → ℚ

/-- `crate::EPSILON` from `lib.rs`: `0.00001`, the lenient comparison and
nudge epsilon. -/
def EPSILON : ℚ := 1 / 100000

/-- `tuple.rs` `Point`: a tuple with homogeneous component `w = 1`.  The
constant `w` is kept implicit in the embedding. -/
structure Point where
  x : ℚ
  y : ℚ
  z : ℚ
  deriving DecidableEq

/-- `tuple.rs` `Vector`: a tuple with homogeneous component `w = 0`. -/
structure Vector where
  x : ℚ
  y : ℚ
  z : ℚ
  deriving DecidableEq

/-- `color.rs` `Color`: a tuple of three channels (its `w` is always `0`). -/
structure Color where
  r : ℚ
  g : ℚ
  b : ℚ
  deriving DecidableEq

/-- Modelled from the spec: `Point::origin` (its defining revision of
`tuple.rs` is absent from the snapshot; tests use it as `(0,0,0)`). -/
def Point.origin : Point := ⟨0, 0, 0⟩

instance : Add Vector := ⟨fun a b => ⟨a.x + b.x, a.y + b.y, a.z + b.z⟩⟩

instance : Sub Vector := ⟨fun a b => ⟨a.x - b.x, a.y - b.y, a.z - b.z⟩⟩

instance : Neg Vector := ⟨fun a => ⟨0 - a.x, 0 - a.y, 0 - a.z⟩⟩

/-- `impl Mul<f64> for Vector`. -/
instance : HMul Vector ℚ Vector := ⟨fun a s => ⟨a.x * s, a.y * s, a.z * s⟩⟩

/-- `impl Mul<Vector> for f64`. -/
instance : HMul ℚ Vector Vector := ⟨fun s a => ⟨a.x * s, a.y * s, a.z * s⟩⟩

/-- `impl Add<Vector> for Point`. -/
instance : HAdd Point Vector Point := ⟨fun p v => ⟨p.x + v.x, p.y + v.y, p.z + v.z⟩⟩

/-- `impl Sub<Point> for Point` (yields a `Vector`). -/
instance : HSub Point Point Vector := ⟨fun p q => ⟨p.x - q.x, p.y - q.y, p.z - q.z⟩⟩

/-- `impl Sub<Vector> for Point`. -/
instance : HSub Point Vector Point := ⟨fun p v => ⟨p.x - v.x, p.y - v.y, p.z - v.z⟩⟩

/-- `Vector::dot`. -/
def Vector.dot (u v : Vector) : ℚ := u.x * v.x + u.y * v.y + u.z * v.z

/-- `f64::hypot`, modelled by its mathematical definition through the
abstract square root. -/
def hypotQ (F : FloatOps) (a b : ℚ) : ℚ := F.sqrt (a * a + b * b)

/-- `Vector::magnitude`: `x.hypot(y).hypot(z)`. -/
def Vector.magnitude (F : FloatOps) (v : Vector) : ℚ :=
  hypotQ F (hypotQ F v.x v.y) v.z

/-- `Vector::normalize`: componentwise division by the magnitude. -/
def Vector.normalize (F : FloatOps) (v : Vector) : Vector :=
  let mag := v.magnitude F
  ⟨v.x / mag, v.y / mag, v.z / mag⟩

/-- Modelled from the spec: `Vector::reflect` (its defining revision of
`tuple.rs` is absent from the snapshot):
`reflect(incoming, normal) = incoming − normal·2·dot(incoming, normal)`. -/
def Vector.reflect (v normal : Vector) : Vector :=
  v - normal * (2 * v.dot normal)

instance : Add Color := ⟨fun a b => ⟨a.r + b.r, a.g + b.g, a.b + b.b⟩⟩

instance : Sub Color := ⟨fun a b => ⟨a.r - b.r, a.g - b.g, a.b - b.b⟩⟩

/-- `impl Mul<f64> for Color`. -/
instance : HMul Color ℚ Color := ⟨fun c s => ⟨c.r * s, c.g * s, c.b * s⟩⟩

/-- `impl Mul<Color> for Color`: the Hadamard product. -/
instance : HMul Color Color Color := ⟨fun a b => ⟨a.r * b.r, a.g * b.g, a.b * b.b⟩⟩

/-- `Color::new`. -/
def Color.new (r g b : ℚ) : Color := ⟨r, g, b⟩

/-- `Color::white()` (generated as `256/256` per channel in `color.rs`). -/
def Color.white : Color := ⟨1, 1, 1⟩

/-- `Color::black()`. -/
def Color.black : Color := ⟨0, 0, 0⟩

/-! ### Matrices (`matrix.rs`)

The Rust code uses const-generic square matrices; only the 4×4, 3×3 and 2×2
instances occur.  They are embedded as Mathlib function matrices over `ℚ`,
with the determinant/cofactor/inverse algorithms transliterated from
`matrix.rs` (cofactor expansion along row 0; `submatrix` removes one row and
one column, which is exactly `Matrix.submatrix` along `Fin.succAbove`). -/

abbrev M4 := Matrix (Fin 4) (Fin 4) ℚ

abbrev M3 := Matrix (Fin 3) (Fin 3) ℚ

abbrev M2 := Matrix (Fin 2) (Fin 2) ℚ

/-- `Matrix::<2,2>::det`. -/
def det2 (A : M2) : ℚ := A 0 0 * A 1 1 - A 0 1 * A 1 0

/-- `Matrix::<3,3>::submatrix(i, j)`: drop row `i` and column `j`. -/
def sub3 (A : M3) (i j : Fin 3) : M2 := A.submatrix i.succAbove j.succAbove

/-- `Matrix::<3,3>::cofactor(i, j)`. -/
def cof3 (A : M3) (i j : Fin 3) : ℚ :=
  if (i.val + j.val) % 2 = 0 then det2 (sub3 A i j) else -det2 (sub3 A i j)

/-- `Matrix::<3,3>::det`: cofactor expansion along row 0. -/
def det3 (A : M3) : ℚ :=
  A 0 0 * cof3 A 0 0 + A 0 1 * cof3 A 0 1 + A 0 2 * cof3 A 0 2

/-- `Matrix::<4,4>::submatrix(i, j)`. -/
def sub4 (A : M4) (i j : Fin 4) : M3 := A.submatrix i.succAbove j.succAbove

/-- `Matrix::<4,4>::cofactor(i, j)`. -/
def cof4 (A : M4) (i j : Fin 4) : ℚ :=
  if (i.val + j.val) % 2 = 0 then det3 (sub4 A i j) else -det3 (sub4 A i j)

/-- `Matrix::<4,4>::det`: cofactor expansion along row 0. -/
def det4 (A : M4) : ℚ :=
  A 0 0 * cof4 A 0 0 + A 0 1 * cof4 A 0 1 + A 0 2 * cof4 A 0 2 + A 0 3 * cof4 A 0 3

/-- `matrix.rs` `Error`. -/
inductive MatrixError where
  | uninvertible
  deriving DecidableEq

/-- The matrix built by the loop body of `Matrix::<4,4>::inverse`:
`xss[j][i] = cofactor(i, j) / det` (total on `ℚ`, where `q / 0 = 0`). -/
def inv4 (A : M4) : M4 := fun p q => cof4 A q p / det4 A

/-- `Matrix::<4,4>::inverse`: `Err(Uninvertible)` when the determinant is 0,
otherwise the cofactor-transpose divided by the determinant. -/
def inverse4 (A : M4) : Except MatrixError M4 :=
  if det4 A = 0 then .error .uninvertible else .ok (inv4 A)

/-- Modelled from the spec: the 3×3 inverse (`inverse = cofactor-transpose ÷
determinant`).  `shapes/mod.rs` calls `.submatrix(3,3).inverse()` on a 3×3
matrix, but the revision of `matrix.rs` in the snapshot only defines
`inverse` at 4×4. -/
def inv3 (A : M3) : M3 := fun p q => cof3 A q p / det3 A

/-- `Matrix::<K,K>::transpose` at 3×3. -/
def transpose3 (A : M3) : M3 := fun i j => A j i

/-- `Matrix::<K,K>::ident` at 4×4. -/
def ident4 : M4 := fun i j => if i = j then 1 else 0

/-- `Matrix::mult` specialized to 4×4 (the summation loop unrolled). -/
def matMul4 (A B : M4) : M4 :=
  fun i j => A i 0 * B 0 j + A i 1 * B 1 j + A i 2 * B 2 j + A i 3 * B 3 j

/-- `Matrix::<4,4>::mult_tuple` followed by `Point::new` as in
`impl Mul<Point> for Matrix<4,4>` (homogeneous component 1). -/
def mulPoint (A : M4) (p : Point) : Point :=
  ⟨A 0 0 * p.x + A 0 1 * p.y + A 0 2 * p.z + A 0 3 * 1,
   A 1 0 * p.x + A 1 1 * p.y + A 1 2 * p.z + A 1 3 * 1,
   A 2 0 * p.x + A 2 1 * p.y + A 2 2 * p.z + A 2 3 * 1⟩

/-- `impl Mul<Vector> for Matrix<4,4>` (homogeneous component 0). -/
def mulVector (A : M4) (v : Vector) : Vector :=
  ⟨A 0 0 * v.x + A 0 1 * v.y + A 0 2 * v.z + A 0 3 * 0,
   A 1 0 * v.x + A 1 1 * v.y + A 1 2 * v.z + A 1 3 * 0,
   A 2 0 * v.x + A 2 1 * v.y + A 2 2 * v.z + A 2 3 * 0⟩

/-- `transform.rs` `translation(x, y, z)`. -/
def translation (x y z : ℚ) : M4 :=
  !![1, 0, 0, x; 0, 1, 0, y; 0, 0, 1, z; 0, 0, 0, 1]

/-- `transform.rs` `scaling(x, y, z)`. -/
def scaling (x y z : ℚ) : M4 :=
  !![x, 0, 0, 0; 0, y, 0, 0; 0, 0, z, 0; 0, 0, 0, 1]

/-- `transform.rs` `Tr`: a transformation wrapping its 4×4 matrix. -/
structure Tr where
  matrix : M4
  deriving DecidableEq

/-- `Tr::default()`: the identity transformation. -/
def Tr.default : Tr := ⟨ident4⟩

/-- `Tr::new()` (used by the newer tests; same as `Tr::default()`). -/
def Tr.new : Tr := Tr.default

/-- `Tr::translate`: left-multiplication by a translation matrix. -/
def Tr.translate (t : Tr) (x y z : ℚ) : Tr := ⟨matMul4 (translation x y z) t.matrix⟩

/-- `Tr::scale`: left-multiplication by a scaling matrix. -/
def Tr.scale (t : Tr) (x y z : ℚ) : Tr := ⟨matMul4 (scaling x y z) t.matrix⟩

/-- `Tr::inverse`: `Tr(self.0.inverse().unwrap())`.  The `unwrap` panics on
`Err(Uninvertible)`; the panic is modelled by `none`. -/
def Tr.inverse (t : Tr) : Option Tr :=
  match inverse4 t.matrix with
  | .ok m => some ⟨m⟩
  | .error _ => none

/-- Total counterpart of `Tr::inverse` used on the rendering path of the
embedding.  It agrees with `Tr.inverse` whenever the matrix is invertible;
on a singular matrix Rust would panic (the subject of the `Tr::inverse`
safety claim) while this model returns the junk matrix `inv4`. -/
def Tr.inv (t : Tr) : Tr := ⟨inv4 t.matrix⟩

/-! ### Patterns (`patterns.rs`), materials and lights (`light.rs`) -/

/-- The concrete pattern variants of `patterns.rs` (the closed set of
implementors of the `Pattern` trait), each holding two colors. -/
inductive PatternKind where
  | stripe
  | gradient
  | ring
  | checkers
  deriving DecidableEq

/-- A pattern: a variant with its two colors and its local transform. -/
structure Pattern where
  kind : PatternKind
  a : Color
  b : Color
  transform : Tr
  deriving DecidableEq

/-- `Pattern::color_at` for each variant of `patterns.rs`.  `f64::floor` is
`Rat.floor`; the parity test `% 2.0 == 0.0` on an integral float is
divisibility by 2. -/
def Pattern.color_at (F : FloatOps) (pat : Pattern) (p : Point) : Color :=
  match pat.kind with
  | .stripe => if ⌊p.x⌋ % 2 = 0 then pat.a else pat.b
  | .gradient =>
      let d := pat.b - pat.a
      let f := p.x - (⌊p.x⌋ : ℚ)
      pat.a + d * f
  | .ring => if ⌊hypotQ F p.x p.z⌋ % 2 = 0 then pat.a else pat.b
  | .checkers => if (⌊p.x⌋ + ⌊p.y⌋ + ⌊p.z⌋) % 2 = 0 then pat.a else pat.b

/-- `light.rs` `PointLight`. -/
structure PointLight where
  position : Point
  intensity : Color
  deriving DecidableEq

/-- `light.rs` `Material`. -/
structure Material where
  color : Color
  ambient : ℚ
  diffuse : ℚ
  specular : ℚ
  shininess : ℚ
  reflective : ℚ
  transparency : ℚ
  refractive_index : ℚ
  pattern : Option Pattern
  deriving DecidableEq

/-- `impl Default for Material`. -/
def Material.default : Material :=
  { color := Color.new 1 1 1
    ambient := 1 / 10
    diffuse := 9 / 10
    specular := 9 / 10
    shininess := 200
    reflective := 0
    transparency := 0
    refractive_index := 1
    pattern := none }

/-! ### Shapes (`shapes/mod.rs`, `shapes/sphere.rs`, `shapes/plane.rs`) -/

/-- The closed set of shape variants (`sphere`, `plane`); the sphere carries
its center as in `shapes/sphere.rs`. -/
inductive ShapeKind where
  | sphere (center : Point)
  | plane
  deriving DecidableEq

/-- A shape instance (`Object = Arc<dyn Shape>`): a stable identity, the
variant, the transform and the material. -/
structure Object where
  id : Nat
  kind : ShapeKind
  transform : Tr
  material : Material
  deriving DecidableEq

/-- `ray.rs` `Ray`. -/
structure Ray where
  origin : Point
  direction : Vector
  deriving DecidableEq

/-- `Ray::position_at`: `origin + t * direction`. -/
def Ray.position_at (r : Ray) (t : ℚ) : Point := r.origin + t * r.direction

/-- `Ray::with_transform` (`ray.rs` `Ray::transform`): multiply origin and
direction by the transform's matrix. -/
def Ray.with_transform (r : Ray) (t : Tr) : Ray :=
  ⟨mulPoint t.matrix r.origin, mulVector t.matrix r.direction⟩

/-- `ray.rs` `Intersection`: a `t` value tagged with the hit object. -/
structure Intersection where
  t : ℚ
  object : Object
  deriving DecidableEq

/-- `Shape::local_intersect_with` for both variants.  Sphere
(`shapes/sphere.rs`): quadratic with the epsilon treatment of the
discriminant.  Plane (`shapes/plane.rs`): a single hit unless the ray is
parallel to the xz plane. -/
def Object.local_intersect_with (F : FloatOps) (o : Object) (r : Ray) : List Intersection :=
  match o.kind with
  | .sphere center =>
      let sphere_to_ray : Vector := r.origin - center
      let a := r.direction.dot r.direction
      let b := 2 * r.direction.dot sphere_to_ray
      let c := sphere_to_ray.dot sphere_to_ray - 1
      let discr := b * b - 4 * a * c
      if discr < -EPSILON then []
      else
        let discr := if |discr| < EPSILON then 0 else discr
        let t1 := (-b - F.sqrt discr) / (2 * a)
        let t2 := (-b + F.sqrt discr) / (2 * a)
        [⟨t1, o⟩, ⟨t2, o⟩]
  | .plane =>
      if |r.direction.y| < EPSILON then []
      else [⟨-r.origin.y / r.direction.y, o⟩]

/-- `Shape::intersect_with` (`shapes/mod.rs`): transform the ray into object
space by the inverse transform, then run the local test.  Rust computes the
inverse through `Tr::inverse` (which panics on a singular transform); the
total model `Tr.inv` is used here. -/
def Object.intersect_with (F : FloatOps) (o : Object) (r : Ray) : List Intersection :=
  o.local_intersect_with F (r.with_transform o.transform.inv)

/-- `Shape::local_normal_at`: sphere: `p − center`; plane: `(0,1,0)`. -/
def Object.local_normal_at (o : Object) (p : Point) : Vector :=
  match o.kind with
  | .sphere center => p - center
  | .plane => ⟨0, 1, 0⟩

/-- `Shape::normal_at` (`shapes/mod.rs`): lift the point to object space,
take the local normal, push it back through the transpose of the inverse of
the upper-left 3×3 of the transform, and normalize. -/
def Object.normal_at (F : FloatOps) (o : Object) (p : Point) : Vector :=
  let local_point := mulPoint o.transform.inv.matrix p
  let local_normal := o.local_normal_at local_point
  let T := transpose3 (inv3 (sub4 o.transform.matrix 3 3))
  let wx := T 0 0 * local_normal.x + T 0 1 * local_normal.y + T 0 2 * local_normal.z
  let wy := T 1 0 * local_normal.x + T 1 1 * local_normal.y + T 1 2 * local_normal.z
  let wz := T 2 0 * local_normal.x + T 2 1 * local_normal.y + T 2 2 * local_normal.z
  Vector.normalize F ⟨wx, wy, wz⟩

/-- `world.rs` `World`: an optional point light and the object list. -/
structure World where
  light : Option PointLight
  objects : List Object
  deriving DecidableEq

/-- Ordering of intersections by their `t` value, as used by the
`sort_by(total_cmp)` call of `when_intersect_world` (all values are finite
rationals here, so `total_cmp` is the usual order). -/
def tLE (a b : Intersection) : Prop := a.t ≤ b.t

instance : DecidableRel tLE := fun a b => inferInstanceAs (Decidable (a.t ≤ b.t))

instance : IsTotal Intersection tLE := ⟨fun a b => le_total a.t b.t⟩

instance : IsTrans Intersection tLE := ⟨fun _ _ _ h h' => le_trans h h'⟩

/-- `Ray::when_intersect_world`: collect every object's intersections with
the ray and sort the result ascending by `t`.  Rust's stable `sort_by` is
modelled by insertion sort (the claims below only concern the sortedness and
the multiset of results). -/
def Ray.when_intersect_world (F : FloatOps) (r : Ray) (w : World) : List Intersection :=
  List.insertionSort tLE ((w.objects.map fun o => o.intersect_with F r).flatten)

/-- The loop body of `ray.rs` `hit`: skip negative `t`; replace the current
best when the new `t` is strictly smaller. -/
def hitStep (res : Option Intersection) (x : Intersection) : Option Intersection :=
  if x.t < 0 then res
  else
    match res with
    | none => some x
    | some y => if x.t < y.t then some x else some y

/-- `ray.rs` `hit`: linear scan for the smallest non-negative `t`. -/
def hit (xs : List Intersection) : Option Intersection := xs.foldl hitStep none

/-! ### Prepared intersections and the shading kernel

The revision of `ray.rs` defining `IntersectionVals` with
`over_point`/`under_point`/`reflectv`/`n1`/`n2`, together with
`prepare_computations` and `schlick`, is absent from the snapshot (only its
callers in `light.rs`/`world.rs` are present); those definitions are
modelled from the specification. -/

/-- The prepared-intersection record `IntersectionVals` (named `ItrsectnVs`
by `world.rs`), as used by `light.rs` and `world.rs`. -/
structure IntersectionVals where
  t : ℚ
  object : Object
  point : Point
  eyev : Vector
  normalv : Vector
  inside : Bool
  over_point : Point
  under_point : Point
  reflectv : Vector
  n1 : ℚ
  n2 : ℚ
  deriving DecidableEq

/-- Refractive index of the object on top of the traversal container
(`1.0` when the container is empty). -/
def containerTop (cs : List Object) : ℚ :=
  match cs.getLast? with
  | none => 1
  | some o => o.material.refractive_index

/-- Modelled from the spec: the `n1`/`n2` walk of `prepare_computations`.
Walk the full intersection list in order, maintaining the ordered container
of objects currently being traversed; at the target hit, `n1` is read before
the container update and `n2` after it. -/
def n1n2Walk (hitI : Intersection) : List Object → List Intersection → ℚ × ℚ
  | _, [] => (1, 1)
  | containers, i :: rest =>
      let n1v := containerTop containers
      let containers' :=
        if containers.contains i.object then containers.erase i.object
        else containers ++ [i.object]
      if i = hitI then (n1v, containerTop containers')
      else n1n2Walk hitI containers' rest

/-- Modelled from the spec: `Intersection::prepare_computations` (with the
optional full intersection list used for `n1`/`n2`; when absent the list
containing only the hit is walked). -/
def prepare_computations (F : FloatOps) (i : Intersection) (r : Ray)
    (xs : Option (List Intersection)) : IntersectionVals :=
  let point := r.position_at i.t
  let eyev := -r.direction
  let normalv0 := i.object.normal_at F point
  let inside := decide (eyev.dot normalv0 < 0)
  let normalv := if inside then -normalv0 else normalv0
  let nn := n1n2Walk i [] (xs.getD [i])
  { t := i.t
    object := i.object
    point := point
    eyev := eyev
    normalv := normalv
    inside := inside
    over_point := point + normalv * EPSILON
    under_point := point - normalv * EPSILON
    reflectv := r.direction.reflect normalv
    n1 := nn.1
    n2 := nn.2 }

/-- Modelled from the spec: `schlick` reflectance.  Compute the Fresnel
approximation from `cos_i`, swapping to `cos_t` when `n1 > n2`, with an
early `1.0` under total internal reflection;
`r0 = ((n1−n2)/(n1+n2))²`, result `r0 + (1−r0)·(1−cos)^5`. -/
def schlick (F : FloatOps) (c : IntersectionVals) : ℚ :=
  let cosv := c.eyev.dot c.normalv
  if c.n1 > c.n2 then
    let n := c.n1 / c.n2
    let sin2_t := n * n * (1 - cosv * cosv)
    if sin2_t > 1 then 1
    else
      let cos_t := F.sqrt (1 - sin2_t)
      let r0 := ((c.n1 - c.n2) / (c.n1 + c.n2)) ^ 2
      r0 + (1 - r0) * (1 - cos_t) ^ 5
  else
    let r0 := ((c.n1 - c.n2) / (c.n1 + c.n2)) ^ 2
    r0 + (1 - r0) * (1 - cosv) ^ 5

/-- `Pattern::color_on_object` (`patterns.rs`): world space → object space →
pattern space, then `color_at`. -/
def Pattern.color_on_object (F : FloatOps) (pat : Pattern) (s : Object) (p : Point) : Color :=
  let object_p := mulPoint s.transform.inv.matrix p
  let pattern_p := mulPoint pat.transform.inv.matrix object_p
  pat.color_at F pattern_p

/-- `light.rs` `lighting`: Phong shading with pattern lookup and shadow
attenuation. -/
def lighting (F : FloatOps) (m : Material) (obj : Object) (light : PointLight)
    (p : Point) (eyev normalv : Vector) (in_shadow : Bool) : Color :=
  let effective_color : Color :=
    match m.pattern with
    | none => m.color * light.intensity
    | some pat => pat.color_on_object F obj p * light.intensity
  let ambient : Color := effective_color * m.ambient
  if in_shadow then ambient
  else
    let lightv := (light.position - p).normalize F
    let light_dot_normal := lightv.dot normalv
    let ds : Color × Color :=
      if light_dot_normal < 0 then (Color.black, Color.black)
      else
        let diffuse : Color := effective_color * m.diffuse * light_dot_normal
        let reflectv := (-lightv).reflect normalv
        let reflect_dot_eye := reflectv.dot eyev
        let specular : Color :=
          if reflect_dot_eye < 0 then Color.black
          else light.intensity * m.specular * F.powf reflect_dot_eye m.shininess
        (diffuse, specular)
    ambient + ds.1 + ds.2

/-- `light.rs` `is_shadowed`: no light means shadowed; otherwise cast a ray
toward the light and compare the hit's `t` with the distance. -/
def is_shadowed (F : FloatOps) (w : World) (p : Point) : Bool :=
  match w.light with
  | none => true
  | some l =>
      let v := l.position - p
      let distance := v.magnitude F
      let direction := v.normalize F
      let r : Ray := ⟨p, direction⟩
      let intersections := r.when_intersect_world F w
      match hit intersections with
      | none => false
      | some i => decide (i.t < distance)

/-- Body of `light.rs` `reflected_color`, abstracted over the recursive call
`cor = color_of_ray(·, limit − 1)` so that the recursion can be set up
structurally on the limit. -/
def reflectedGo (cor : Ray → Color) (comps : IntersectionVals) (limit : Nat) : Color :=
  if limit ≤ 0 then Color.white
  else if comps.object.material.reflective = 0 then Color.black
  else
    let reflect_ray : Ray := ⟨comps.over_point, comps.reflectv⟩
    cor reflect_ray * comps.object.material.reflective

/-- Body of `light.rs` `refracted_color`, abstracted over the recursive call
`cor = color_of_ray(·, limit − 1)`. -/
def refractedGo (F : FloatOps) (cor : Ray → Color) (comps : IntersectionVals)
    (limit : Nat) : Color :=
  if limit ≤ 0 ∨ comps.object.material.transparency = 0 then Color.black
  else
    let nr := comps.n1 / comps.n2
    let cos_i := comps.eyev.dot comps.normalv
    let sin2_t := nr * nr * (1 - cos_i * cos_i)
    if sin2_t > 1 then Color.white
    else
      let cos_t := F.sqrt (1 - sin2_t)
      let direction := comps.normalv * (nr * cos_i - cos_t) - comps.eyev * nr
      let refract_ray : Ray := ⟨comps.under_point, direction⟩
      cor refract_ray * comps.object.material.transparency

/-- Body of `world.rs` `World::shade_hit`, abstracted over the recursive
call `cor = color_of_ray(·, limit − 1)`. -/
def shadeHitGo (F : FloatOps) (cor : Ray → Color) (w : World)
    (c : IntersectionVals) (limit : Nat) : Color :=
  let surface := lighting F c.object.material c.object
    (w.light.getD ⟨Point.origin, Color.black⟩)
    c.over_point c.eyev c.normalv (is_shadowed F w c.over_point)
  let reflected := reflectedGo cor c limit
  let refracted := refractedGo F cor c limit
  let material := c.object.material
  if material.refractive_index > 0 ∧ material.transparency > 0 then
    let reflectance := schlick F c
    surface + reflected * reflectance + refracted * (1 - reflectance)
  else
    surface + reflected + refracted

/-- Body of `world.rs` `World::color_of_ray`, abstracted over the recursive
call. -/
def colorOfRayGo (F : FloatOps) (cor : Ray → Color) (w : World) (r : Ray)
    (limit : Nat) : Color :=
  let intersections := r.when_intersect_world F w
  if intersections.length = 0 then Color.black
  else
    match hit intersections with
    | some i => shadeHitGo F cor w (prepare_computations F i r (some intersections)) limit
    | none => Color.black

/-- `World::color_of_ray`, by structural recursion on the limit.  At limit 0
neither `reflected_color` nor `refracted_color` recurses (both are guarded
by the `limit <= 0` checks inside the `Go` bodies), so the continuation
passed there is never invoked and the constant black continuation is a
placeholder. -/
def color_of_ray (F : FloatOps) (w : World) (r : Ray) : Nat → Color
  | 0 => colorOfRayGo F (fun _ => Color.black) w r 0
  | n + 1 => colorOfRayGo F (fun r2 => color_of_ray F w r2 n) w r (n + 1)

/-- `light.rs` `reflected_color`. -/
def reflected_color (F : FloatOps) (w : World) (comps : IntersectionVals)
    (limit : Nat) : Color :=
  reflectedGo (fun r2 => color_of_ray F w r2 (limit - 1)) comps limit

/-- `light.rs` `refracted_color`. -/
def refracted_color (F : FloatOps) (w : World) (comps : IntersectionVals)
    (limit : Nat) : Color :=
  refractedGo F (fun r2 => color_of_ray F w r2 (limit - 1)) comps limit

/-- `World::shade_hit`. -/
def shade_hit (F : FloatOps) (w : World) (c : IntersectionVals) (limit : Nat) : Color :=
  shadeHitGo F (fun r2 => color_of_ray F w r2 (limit - 1)) w c limit

/-! ### Canvas (`canvas.rs`) -/

/-- `canvas.rs` `Canvas`: a dense row-major pixel buffer. -/
structure Canvas where
  width : Nat
  height : Nat
  pixels : List Color
  deriving DecidableEq

/-- `Canvas::new`. -/
def Canvas.new (width height : Nat) : Canvas :=
  ⟨width, height, List.replicate (width * height) (Color.new 0 0 0)⟩

/-- `Canvas::write_to`: ignores out-of-bounds coordinates, otherwise writes
the flat buffer at `y * width + x`. -/
def Canvas.write_to (c : Canvas) (x y : Nat) (color : Color) : Canvas :=
  if x ≥ c.width ∨ y ≥ c.height then c
  else { c with pixels := c.pixels.set (y * c.width + x) color }

/-- `Canvas::pixel_at`: unchecked indexing of the flat buffer at
`y * width + x`.  The out-of-bounds panic of `self.pixels[idx]` is modelled
by `none`. -/
def Canvas.pixel_at (c : Canvas) (x y : Nat) : Option Color :=
  c.pixels.get? (y * c.width + x)

/-! ### Camera (`camera.rs`) -/

/-- `camera.rs` `Camera`. -/
structure Camera where
  hsize : Nat
  vsize : Nat
  field_of_view : ℚ
  transform : Tr
  half_width : ℚ
  half_height : ℚ
  pixel_size : ℚ
  deriving DecidableEq

/-- `Camera::new`: derives `half_width`, `half_height` and `pixel_size` from
`(hsize, vsize, field_of_view)`. -/
def Camera.new (F : FloatOps) (hsize vsize : Nat) (field_of_view : ℚ) : Camera :=
  let half_view := F.tan (field_of_view / 2)
  let aspect : ℚ := (hsize : ℚ) / (vsize : ℚ)
  let hw_hh := if aspect ≥ 1
    then (half_view, half_view / aspect)
    else (half_view * aspect, half_view)
  let pixel_size := 2 * hw_hh.1 / (hsize : ℚ)
  ⟨hsize, vsize, field_of_view, Tr.default, hw_hh.1, hw_hh.2, pixel_size⟩

/-! ### Concrete instances used by the witnesses -/

/-- A concrete interpretation of the float intrinsics for witnesses (every
theorem is quantified over the interpretation, so any fixed one serves). -/
def F0 : FloatOps := ⟨fun _ => 0, fun _ => 0, fun _ _ => 0⟩

/-- A concrete interpretation whose tangent is constantly 1 (used to
evaluate the camera construction at a concrete field of view). -/
def tanOneOps : FloatOps := ⟨fun _ => 0, fun _ => 1, fun _ _ => 0⟩

/-- A default unit sphere with the default material. -/
def sampleObject : Object :=
  { id := 0
    kind := .sphere Point.origin
    transform := Tr.default
    material := Material.default }

/-- A world with no light and no objects. -/
def sampleWorld : World := ⟨none, []⟩

/-- A prepared intersection over the default material (reflective 0,
transparency 0). -/
def sampleComps : IntersectionVals :=
  { t := 4
    object := sampleObject
    point := ⟨0, 0, -1⟩
    eyev := ⟨0, 0, -1⟩
    normalv := ⟨0, 0, -1⟩
    inside := false
    over_point := ⟨0, 0, -1 - 1/100000⟩
    under_point := ⟨0, 0, -1 + 1/100000⟩
    reflectv := ⟨0, 0, -1⟩
    n1 := 1
    n2 := 1 }

/-- A prepared intersection whose material is reflective. -/
def reflComps : IntersectionVals :=
  { sampleComps with
      object := { sampleObject with material := { Material.default with reflective := 1/2 } } }

/-- A prepared intersection under total internal reflection
(`n1 = 2`, `n2 = 1`, `eyev ⬝ normalv = 1/2`, so `sin2_t = 3 > 1`). -/
def tirComps : IntersectionVals :=
  { sampleComps with
      object :=
        { sampleObject with
            material := { Material.default with transparency := 1, refractive_index := 2 } }
      eyev := ⟨0, 0, 1/2⟩
      normalv := ⟨0, 0, 1⟩
      n1 := 2
      n2 := 1 }

/-- A prepared intersection with a transparent material and no total
internal reflection (`n1 = n2 = 1`, `eyev ⬝ normalv = 1`). -/
def refrComps : IntersectionVals :=
  { sampleComps with
      object :=
        { sampleObject with
            material := { Material.default with transparency := 1, refractive_index := 3/2 } }
      eyev := ⟨0, 0, 1⟩
      normalv := ⟨0, 0, 1⟩
      n1 := 1
      n2 := 1 }

/-- The intersection list of the `hit_always_lowest_nonneg` test of
`ray.rs`: t values `5, 7, −3, 2`. -/
def hitListSample : List Intersection :=
  [⟨5, sampleObject⟩, ⟨7, sampleObject⟩, ⟨-3, sampleObject⟩, ⟨2, sampleObject⟩]

/-- A material whose numeric parameters are all integral (slightly easier
for concrete evaluation than `Material.default`). -/
def flatMaterial : Material :=
  { color := Color.new 1 1 1
    ambient := 0
    diffuse := 0
    specular := 0
    shininess := 0
    reflective := 0
    transparency := 0
    refractive_index := 1
    pattern := none }

/-- A unit sphere at the origin. -/
def objA : Object :=
  { id := 0, kind := .sphere Point.origin, transform := Tr.default, material := flatMaterial }

/-- An xz plane. -/
def objB : Object :=
  { id := 1, kind := .plane, transform := Tr.default, material := flatMaterial }

/-- A two-object world (sphere then plane), no light. -/
def worldAB : World := ⟨none, [objA, objB]⟩

/-- A world with a light and no objects. -/
def litWorld : World := ⟨some ⟨⟨0, 0, -10⟩, Color.white⟩, []⟩

/-- The lower fully reflective plane (`translate(0, −1, 0)`,
`reflective = 1`) of the `color_at_with_mutually_reflective_surfaces`
test of `light.rs`. -/
def lowerPlane : Object :=
  { id := 0
    kind := .plane
    transform := Tr.new.translate 0 (-1) 0
    material := { Material.default with reflective := 1 } }

/-- The upper fully reflective plane (`translate(0, 1, 0)`,
`reflective = 1`). -/
def upperPlane : Object :=
  { id := 1
    kind := .plane
    transform := Tr.new.translate 0 1 0
    material := { Material.default with reflective := 1 } }

/-- The world of the mutually-reflective-planes test: a light at the origin
between two fully reflective parallel planes. -/
def mutualWorld : World :=
  ⟨some ⟨Point.origin, Color.white⟩, [lowerPlane, upperPlane]⟩

/-- The ray bouncing between the two planes. -/
def mutualRay : Ray := ⟨Point.origin, ⟨0, 1, 0⟩⟩

/-! ### Theorems -/

/-- **C1** — `reflected_color` (`light.rs:178-191`): white at recursion
depth 0; black when the hit material's `reflective` is 0; otherwise the
color of the ray cast from `comps.over_point` in direction `comps.reflectv`,
evaluated by `color_of_ray` at depth decremented by one, scaled by the
material's `reflective` factor. -/
theorem c1_reflected_color (F : FloatOps) (w : World) (c : IntersectionVals) (limit : Nat) :
    (limit = 0 → reflected_color F w c limit = Color.white)
    ∧ (limit ≠ 0 → c.object.material.reflective = 0 →
        reflected_color F w c limit = Color.black)
    ∧ (limit ≠ 0 → c.object.material.reflective ≠ 0 →
        reflected_color F w c limit
          = color_of_ray F w ⟨c.over_point, c.reflectv⟩ (limit - 1)
              * c.object.material.reflective) := by
  refine ⟨?_, ?_, ?_⟩
  · intro h
    subst h
    simp [reflected_color, reflectedGo]
  · intro h h2
    simp [reflected_color, reflectedGo, Nat.le_zero, h, h2]
  · intro h h2
    simp [reflected_color, reflectedGo, Nat.le_zero, h, h2]

/-- Witness for C1: the three branches evaluated at concrete prepared
intersections. -/
theorem c1_reflected_color_witness :
    reflected_color F0 sampleWorld sampleComps 0 = Color.white
    ∧ reflected_color F0 sampleWorld sampleComps 5 = Color.black
    ∧ reflected_color F0 sampleWorld reflComps 5
        = color_of_ray F0 sampleWorld ⟨reflComps.over_point, reflComps.reflectv⟩ 4
            * reflComps.object.material.reflective :=
  ⟨(c1_reflected_color F0 sampleWorld sampleComps 0).1 rfl,
   (c1_reflected_color F0 sampleWorld sampleComps 5).2.1 (by decide)
     (by norm_num [sampleComps, sampleObject, Material.default]),
   (c1_reflected_color F0 sampleWorld reflComps 5).2.2 (by decide)
     (by norm_num [reflComps, sampleComps, sampleObject, Material.default])⟩

/-- **C8** (corrected) — `Camera::new` (`camera.rs:21-42`): with
`half_view = tan(fov/2)` and `aspect = hsize/vsize`, if `aspect ≥ 1` then
`half_width = half_view` and `half_height = half_view / aspect`; otherwise
`half_width = half_view * aspect` (not `half_view / aspect` as the claim
states) and `half_height = half_view`; in both cases
`pixel_size = 2 * half_width / hsize`. -/
theorem c8_camera_construction (F : FloatOps) (hsize vsize : Nat) (fov : ℚ) :
    ((hsize : ℚ) / (vsize : ℚ) ≥ 1 →
      (Camera.new F hsize vsize fov).half_width = F.tan (fov / 2)
      ∧ (Camera.new F hsize vsize fov).half_height
          = F.tan (fov / 2) / ((hsize : ℚ) / (vsize : ℚ)))
    ∧ (¬ ((hsize : ℚ) / (vsize : ℚ) ≥ 1) →
      (Camera.new F hsize vsize fov).half_width
          = F.tan (fov / 2) * ((hsize : ℚ) / (vsize : ℚ))
      ∧ (Camera.new F hsize vsize fov).half_height = F.tan (fov / 2))
    ∧ (Camera.new F hsize vsize fov).pixel_size
        = 2 * (Camera.new F hsize vsize fov).half_width / (hsize : ℚ) := by
  by_cases h : (hsize : ℚ) / (vsize : ℚ) ≥ 1 <;>
    simp [Camera.new, h]

/-- Counterexample for C8 as stated: with `tan ≡ 1`, `hsize = 1`,
`vsize = 2` the aspect is `1/2 < 1` and the code sets
`half_width = half_view * aspect = 1/2`, not the claimed
`half_view / aspect = 2`. -/
theorem c8_camera_counterexample :
    ¬ ((Camera.new tanOneOps 1 2 0).half_width
        = tanOneOps.tan (0 / 2) / (((1 : Nat) : ℚ) / ((2 : Nat) : ℚ))) := by
  norm_num [Camera.new, tanOneOps]

/-- Witness for C8 (amended): a landscape and a portrait camera evaluated
concretely. -/
theorem c8_camera_witness :
    (Camera.new tanOneOps 2 1 0).half_width = tanOneOps.tan (0 / 2)
    ∧ (Camera.new tanOneOps 1 2 0).half_width
        = tanOneOps.tan (0 / 2) * (((1 : Nat) : ℚ) / ((2 : Nat) : ℚ)) :=
  ⟨((c8_camera_construction tanOneOps 2 1 0).1 (by norm_num)).1,
   ((c8_camera_construction tanOneOps 1 2 0).2.1 (by norm_num)).1⟩

/-- **C10** — `Canvas::pixel_at` (`canvas.rs:29-32`) performs no bounds
check, unlike `write_to` (`canvas.rs:21-27`): it reads the flat row-major
buffer at `y*w + x`; with `x ≥ w` but `y*w + x < w*h` it silently returns
the pixel of a later row (row `y + x/w`, column `x % w`), while
`y*w + x ≥ w*h` is an index-out-of-bounds panic (`none`); `write_to`
ignores the same out-of-range `x` entirely. -/
theorem c10_pixel_at_unchecked (c : Canvas) (x y : Nat)
    (hlen : c.pixels.length = c.width * c.height) (hx : c.width ≤ x) :
    c.pixel_at x y = c.pixels.get? (y * c.width + x)
    ∧ (y * c.width + x < c.width * c.height →
        c.pixel_at x y = c.pixel_at (x % c.width) (y + x / c.width)
        ∧ y < y + x / c.width
        ∧ (c.pixel_at x y).isSome)
    ∧ (c.width * c.height ≤ y * c.width + x → c.pixel_at x y = none)
    ∧ (∀ col, c.write_to x y col = c) := by
  refine ⟨rfl, ?_, ?_, ?_⟩
  · intro hidx
    have hw : 0 < c.width := by
      by_contra h0
      have h0' : c.width = 0 := by omega
      rw [h0'] at hidx
      omega
    have hsplit : y * c.width + x = (y + x / c.width) * c.width + x % c.width := by
      conv_lhs => rw [← Nat.div_add_mod x c.width]
      ring
    refine ⟨?_, ?_, ?_⟩
    · show c.pixels.get? (y * c.width + x) = c.pixels.get? ((y + x / c.width) * c.width + x % c.width)
      rw [hsplit]
    · have : 0 < x / c.width := Nat.div_pos hx hw
      omega
    · have hne : ¬ c.pixels.get? (y * c.width + x) = none := by
        rw [List.get?_eq_none]
        omega
      exact Option.ne_none_iff_isSome.mp hne
  · intro hidx
    exact List.get?_eq_none.mpr (le_trans hlen.le hidx)
  · intro col
    simp [Canvas.write_to, hx]

/-- Witness for C10: a 2×2 canvas; reading pixel `(2,0)` lands on pixel
`(0,1)` of the next row, reading `(2,1)` panics, and writing to `(2,0)` is
ignored. -/
theorem c10_pixel_at_witness :
    (Canvas.new 2 2).pixel_at 2 0 = (Canvas.new 2 2).pixel_at 0 1
    ∧ (Canvas.new 2 2).pixel_at 2 1 = none
    ∧ (Canvas.new 2 2).write_to 2 0 Color.white = Canvas.new 2 2 := by
  have h := c10_pixel_at_unchecked (Canvas.new 2 2) 2 0 (by decide) (by decide)
  have h2 := c10_pixel_at_unchecked (Canvas.new 2 2) 2 1 (by decide) (by decide)
  exact ⟨(h.2.1 (by decide)).1, h2.2.2.1 (by decide), h.2.2.2 Color.white⟩

/-- **C2** — `refracted_color` (`light.rs:194-213`): black at depth 0 or
when the hit material's `transparency` is 0; white under total internal
reflection, i.e. when `sin2_t = (n1/n2)^2 * (1 − (eyev ⬝ normalv)^2) > 1`,
recursing no further; otherwise the color of the Snell-law refraction ray
cast from `comps.under_point`, evaluated by `color_of_ray` at depth
decremented by one, scaled by the material's `transparency`. -/
theorem c2_refracted_color (F : FloatOps) (w : World) (c : IntersectionVals) (limit : Nat) :
    (limit = 0 ∨ c.object.material.transparency = 0 →
        refracted_color F w c limit = Color.black)
    ∧ (limit ≠ 0 → c.object.material.transparency ≠ 0 →
        ((c.n1 / c.n2) ^ 2 * (1 - c.eyev.dot c.normalv ^ 2) > 1 →
            refracted_color F w c limit = Color.white)
        ∧ (¬ ((c.n1 / c.n2) ^ 2 * (1 - c.eyev.dot c.normalv ^ 2) > 1) →
            refracted_color F w c limit
              = color_of_ray F w
                  ⟨c.under_point,
                   c.normalv * ((c.n1 / c.n2) * c.eyev.dot c.normalv
                       - F.sqrt (1 - (c.n1 / c.n2) ^ 2 * (1 - c.eyev.dot c.normalv ^ 2)))
                     - c.eyev * (c.n1 / c.n2)⟩
                  (limit - 1)
                * c.object.material.transparency)) := by
  have hsin : (c.n1 / c.n2) * (c.n1 / c.n2)
        * (1 - c.eyev.dot c.normalv * c.eyev.dot c.normalv)
      = (c.n1 / c.n2) ^ 2 * (1 - c.eyev.dot c.normalv ^ 2) := by ring
  constructor
  · rintro (h | h)
    · subst h
      simp [refracted_color, refractedGo]
    · simp [refracted_color, refractedGo, h]
  · intro h ht
    constructor
    · intro htir
      simp only [refracted_color, refractedGo]
      rw [if_neg (by simp [Nat.le_zero, h, ht]), if_pos (by rw [hsin]; exact htir)]
    · intro htir
      simp only [refracted_color, refractedGo]
      rw [if_neg (by simp [Nat.le_zero, h, ht]), if_neg (by rw [hsin]; exact htir), hsin]

/-- Witness for C2: the four branches evaluated at concrete prepared
intersections (depth exhaustion, opaque material, total internal
reflection, genuine refraction). -/
theorem c2_refracted_color_witness :
    refracted_color F0 sampleWorld refrComps 0 = Color.black
    ∧ refracted_color F0 sampleWorld sampleComps 5 = Color.black
    ∧ refracted_color F0 sampleWorld tirComps 5 = Color.white
    ∧ refracted_color F0 sampleWorld refrComps 5
        = color_of_ray F0 sampleWorld
            ⟨refrComps.under_point,
             refrComps.normalv * ((refrComps.n1 / refrComps.n2)
                 * refrComps.eyev.dot refrComps.normalv
                 - F0.sqrt (1 - (refrComps.n1 / refrComps.n2) ^ 2
                     * (1 - refrComps.eyev.dot refrComps.normalv ^ 2)))
               - refrComps.eyev * (refrComps.n1 / refrComps.n2)⟩
            4
          * refrComps.object.material.transparency :=
  ⟨(c2_refracted_color F0 sampleWorld refrComps 0).1 (Or.inl rfl),
   (c2_refracted_color F0 sampleWorld sampleComps 5).1
     (Or.inr (by norm_num [sampleComps, sampleObject, Material.default])),
   ((c2_refracted_color F0 sampleWorld tirComps 5).2 (by decide)
       (by norm_num [tirComps, sampleComps, sampleObject, Material.default])).1
     (by norm_num [tirComps, sampleComps, Vector.dot]),
   ((c2_refracted_color F0 sampleWorld refrComps 5).2 (by decide)
       (by norm_num [refrComps, sampleComps, sampleObject, Material.default])).2
     (by norm_num [refrComps, sampleComps, Vector.dot])⟩

/-- **C3** — `World::shade_hit` (`world.rs:51-71`): the result is
`surface + reflected·schlick + refracted·(1 − schlick)` exactly when the hit
material satisfies `refractive_index > 0` and `transparency > 0`, and
`surface + reflected + refracted` in every other case, where `surface` is
the Phong `lighting` at `over_point` with the shadow test applied (and the
light defaulting to a black light at the origin when the world has none). -/
theorem c3_shade_hit (F : FloatOps) (w : World) (c : IntersectionVals) (limit : Nat) :
    (c.object.material.refractive_index > 0 ∧ c.object.material.transparency > 0 →
        shade_hit F w c limit
          = lighting F c.object.material c.object
              (w.light.getD ⟨Point.origin, Color.black⟩)
              c.over_point c.eyev c.normalv (is_shadowed F w c.over_point)
            + reflected_color F w c limit * schlick F c
            + refracted_color F w c limit * (1 - schlick F c))
    ∧ (¬ (c.object.material.refractive_index > 0 ∧ c.object.material.transparency > 0) →
        shade_hit F w c limit
          = lighting F c.object.material c.object
              (w.light.getD ⟨Point.origin, Color.black⟩)
              c.over_point c.eyev c.normalv (is_shadowed F w c.over_point)
            + reflected_color F w c limit
            + refracted_color F w c limit) := by
  constructor
  · intro h
    simp only [shade_hit, shadeHitGo, reflected_color, refracted_color]
    rw [if_pos h]
  · intro h
    simp only [shade_hit, shadeHitGo, reflected_color, refracted_color]
    rw [if_neg h]

/-- Witness for C3: the Schlick-blend branch on a transparent refractive
material and the plain-sum branch on the default material. -/
theorem c3_shade_hit_witness :
    shade_hit F0 sampleWorld refrComps 5
      = lighting F0 refrComps.object.material refrComps.object
          (sampleWorld.light.getD ⟨Point.origin, Color.black⟩)
          refrComps.over_point refrComps.eyev refrComps.normalv
          (is_shadowed F0 sampleWorld refrComps.over_point)
        + reflected_color F0 sampleWorld refrComps 5 * schlick F0 refrComps
        + refracted_color F0 sampleWorld refrComps 5 * (1 - schlick F0 refrComps)
    ∧ shade_hit F0 sampleWorld sampleComps 5
      = lighting F0 sampleComps.object.material sampleComps.object
          (sampleWorld.light.getD ⟨Point.origin, Color.black⟩)
          sampleComps.over_point sampleComps.eyev sampleComps.normalv
          (is_shadowed F0 sampleWorld sampleComps.over_point)
        + reflected_color F0 sampleWorld sampleComps 5
        + refracted_color F0 sampleWorld sampleComps 5 :=
  ⟨(c3_shade_hit F0 sampleWorld refrComps 5).1
     (by norm_num [refrComps, sampleComps, sampleObject, Material.default]),
   (c3_shade_hit F0 sampleWorld sampleComps 5).2
     (by norm_num [sampleComps, sampleObject, Material.default])⟩

/-- Case analysis of one step of the `hit` scan. -/
lemma hitStep_cases (acc : Option Intersection) (x : Intersection) :
    (x.t < 0 ∧ hitStep acc x = acc)
    ∨ (¬ x.t < 0 ∧ acc = none ∧ hitStep acc x = some x)
    ∨ (¬ x.t < 0 ∧ ∃ z, acc = some z
        ∧ ((x.t < z.t ∧ hitStep acc x = some x)
            ∨ (¬ x.t < z.t ∧ hitStep acc x = some z))) := by
  by_cases hx : x.t < 0
  · exact Or.inl ⟨hx, by unfold hitStep; rw [if_pos hx]⟩
  · cases acc with
    | none =>
        refine Or.inr (Or.inl ⟨hx, rfl, ?_⟩)
        unfold hitStep
        rw [if_neg hx]
    | some z =>
        by_cases hxz : x.t < z.t
        · refine Or.inr (Or.inr ⟨hx, z, rfl, Or.inl ⟨hxz, ?_⟩⟩)
          unfold hitStep
          rw [if_neg hx]
          exact if_pos hxz
        · refine Or.inr (Or.inr ⟨hx, z, rfl, Or.inr ⟨hxz, ?_⟩⟩)
          unfold hitStep
          rw [if_neg hx]
          exact if_neg hxz

/-- Invariant of the `hit` scan: starting from an accumulator holding only
non-negative candidates, the fold returns `none` exactly when the
accumulator was empty and every element is negative, and any returned
candidate is a non-negative minimum over the list and the accumulator. -/
lemma hit_foldl_spec (xs : List Intersection) :
    ∀ acc : Option Intersection, (∀ y, acc = some y → 0 ≤ y.t) →
      (xs.foldl hitStep acc = none → acc = none ∧ ∀ j ∈ xs, j.t < 0)
      ∧ (∀ r, xs.foldl hitStep acc = some r →
          0 ≤ r.t ∧ (acc = some r ∨ r ∈ xs)
          ∧ (∀ j ∈ xs, 0 ≤ j.t → r.t ≤ j.t)
          ∧ (∀ y, acc = some y → r.t ≤ y.t)) := by
  induction xs with
  | nil =>
      intro acc hacc
      constructor
      · intro h
        rw [List.foldl_nil] at h
        exact ⟨h, by simp⟩
      · intro r hr
        rw [List.foldl_nil] at hr
        refine ⟨hacc r hr, Or.inl hr, by simp, ?_⟩
        intro y hy
        rw [hr] at hy
        cases hy
        exact le_refl _
  | cons x xs ih =>
      intro acc hacc
      have hstep : ∀ y, hitStep acc x = some y → 0 ≤ y.t := by
        intro y hy
        rcases hitStep_cases acc x with ⟨_, he⟩ | ⟨hx, _, he⟩ | ⟨hx, z, hz, ⟨_, he⟩ | ⟨_, he⟩⟩
        · exact hacc y (he ▸ hy)
        · rw [he] at hy; cases hy; exact not_lt.mp hx
        · rw [he] at hy; cases hy; exact not_lt.mp hx
        · rw [he] at hy; cases hy; exact hacc _ hz
      have main := ih (hitStep acc x) hstep
      constructor
      · intro h
        rw [List.foldl_cons] at h
        obtain ⟨h1, h2⟩ := main.1 h
        rcases hitStep_cases acc x with ⟨hx, he⟩ | ⟨hx, hz, he⟩ | ⟨hx, z, hz, ⟨_, he⟩ | ⟨_, he⟩⟩
        · refine ⟨he ▸ h1, ?_⟩
          intro j hj
          rcases List.mem_cons.mp hj with h' | h'
          · subst h'; exact hx
          · exact h2 j h'
        · rw [he] at h1; cases h1
        · rw [he] at h1; cases h1
        · rw [he] at h1; cases h1
      · intro r hr
        rw [List.foldl_cons] at hr
        obtain ⟨hr0, hmem, hmin, haccb⟩ := main.2 r hr
        have hminx : 0 ≤ x.t → r.t ≤ x.t := by
          intro hxt
          rcases hitStep_cases acc x with ⟨hx, he⟩ | ⟨hx, hz, he⟩ | ⟨hx, z, hz, ⟨hxz, he⟩ | ⟨hxz, he⟩⟩
          · exact absurd hxt (not_le.mpr hx)
          · exact haccb x he
          · exact haccb x he
          · exact le_trans (haccb z he) (not_lt.mp hxz)
        refine ⟨hr0, ?_, ?_, ?_⟩
        · rcases hmem with h' | h'
          · rcases hitStep_cases acc x with ⟨_, he⟩ | ⟨_, _, he⟩ | ⟨_, z, hz, ⟨_, he⟩ | ⟨_, he⟩⟩
            · exact Or.inl (he ▸ h')
            · rw [he] at h'; cases h'; exact Or.inr (List.mem_cons_self _ _)
            · rw [he] at h'; cases h'; exact Or.inr (List.mem_cons_self _ _)
            · rw [he] at h'; cases h'; exact Or.inl hz
          · exact Or.inr (List.mem_cons_of_mem _ h')
        · intro j hj hjt
          rcases List.mem_cons.mp hj with h' | h'
          · subst h'; exact hminx hjt
          · exact hmin j h' hjt
        · intro y hy
          rcases hitStep_cases acc x with ⟨hx, he⟩ | ⟨hx, hz, he⟩ | ⟨hx, z, hz, ⟨hxz, he⟩ | ⟨hxz, he⟩⟩
          · exact haccb y (he.trans hy)
          · rw [hy] at hz; cases hz
          · rw [hy] at hz
            cases hz
            exact le_trans (haccb x he) (le_of_lt hxz)
          · rw [hy] at hz
            cases hz
            exact haccb y he

/-- **C5** — `hit` (`ray.rs:166-179`): on any (not necessarily sorted) list
of intersections, `hit` returns an element of the list with non-negative
`t`, minimal among all non-negative `t` values, and returns `none` exactly
when the list has no intersection with `t ≥ 0`. -/
theorem c5_hit (xs : List Intersection) :
    (∀ r, hit xs = some r → r ∈ xs ∧ 0 ≤ r.t ∧ ∀ j ∈ xs, 0 ≤ j.t → r.t ≤ j.t)
    ∧ (hit xs = none ↔ ∀ j ∈ xs, j.t < 0) := by
  have h := hit_foldl_spec xs none (by intro y hy; cases hy)
  constructor
  · intro r hr
    obtain ⟨h0, hmem, hmin, _⟩ := h.2 r hr
    rcases hmem with h' | h'
    · cases h'
    · exact ⟨h', h0, hmin⟩
  · constructor
    · intro hn
      exact (h.1 hn).2
    · intro hall
      cases hh : hit xs with
      | none => rfl
      | some r =>
          obtain ⟨h0, hmem, _, _⟩ := h.2 r hh
          rcases hmem with h' | h'
          · cases h'
          · exact absurd h0 (not_le.mpr (hall r h'))

/-- Witness for C5: the `hit_always_lowest_nonneg` scenario of `ray.rs`
(t values 5, 7, −3, 2) where the minimal non-negative hit is t = 2. -/
theorem c5_hit_witness :
    hit hitListSample = some ⟨2, sampleObject⟩
    ∧ (⟨2, sampleObject⟩ : Intersection) ∈ hitListSample
    ∧ (0 : ℚ) ≤ (2 : ℚ)
    ∧ ∀ j ∈ hitListSample, 0 ≤ j.t → (2 : ℚ) ≤ j.t := by
  have hh : hit hitListSample = some ⟨2, sampleObject⟩ := by
    norm_num [hit, hitListSample, hitStep]
  have h := (c5_hit hitListSample).1 ⟨2, sampleObject⟩ hh
  exact ⟨hh, h.1, by norm_num, h.2.2⟩

/-- **C6** — `Ray::when_intersect_world` (`ray.rs:43-58`): the result is a
permutation of the concatenation of each object's intersections with the
ray, sorted ascending by `t`; and permuting the world's objects leaves the
sorted sequence of `t` values unchanged. -/
theorem c6_when_intersect_world (F : FloatOps) (r : Ray) (w : World) :
    (r.when_intersect_world F w).Perm
        ((w.objects.map fun o => o.intersect_with F r).flatten)
    ∧ List.Sorted tLE (r.when_intersect_world F w)
    ∧ ∀ objs2 : List Object, objs2.Perm w.objects →
        (Ray.when_intersect_world F r ⟨w.light, objs2⟩).map Intersection.t
          = (r.when_intersect_world F w).map Intersection.t := by
  refine ⟨List.perm_insertionSort _ _, List.sorted_insertionSort _ _, ?_⟩
  intro objs2 hperm
  have hmono : ∀ a b : Intersection, tLE a b → a.t ≤ b.t := fun _ _ h => h
  have hperm2 :
      (Ray.when_intersect_world F r ⟨w.light, objs2⟩).Perm (r.when_intersect_world F w) := by
    refine (List.perm_insertionSort _ _).trans (.trans ?_ (List.perm_insertionSort _ _).symm)
    show ((objs2.map fun o => o.intersect_with F r).flatten).Perm _
    rw [← List.flatMap_def, ← List.flatMap_def]
    exact hperm.flatMap_right _
  have hs1 : List.Sorted (· ≤ ·)
      ((Ray.when_intersect_world F r ⟨w.light, objs2⟩).map Intersection.t) :=
    List.Pairwise.map _ hmono (List.sorted_insertionSort _ _)
  have hs2 : List.Sorted (· ≤ ·) ((r.when_intersect_world F w).map Intersection.t) :=
    List.Pairwise.map _ hmono (List.sorted_insertionSort _ _)
  exact List.eq_of_perm_of_sorted (hperm2.map _) hs1 hs2

/-- Witness for C6: swapping the two objects of a concrete world leaves the
sorted `t` sequence of `when_intersect_world` unchanged. -/
theorem c6_when_intersect_world_witness :
    (Ray.when_intersect_world F0 ⟨⟨0, 0, -5⟩, ⟨0, 0, 1⟩⟩ ⟨worldAB.light, [objB, objA]⟩).map
        Intersection.t
      = (Ray.when_intersect_world F0 ⟨⟨0, 0, -5⟩, ⟨0, 0, 1⟩⟩ worldAB).map Intersection.t :=
  (c6_when_intersect_world F0 ⟨⟨0, 0, -5⟩, ⟨0, 0, 1⟩⟩ worldAB).2.2 [objB, objA]
    (List.Perm.swap objA objB [])

/-- **C7** — `is_shadowed` (`light.rs:158-175`): true when the world has no
light; otherwise a ray is cast from the point toward the light, and the
result is true exactly when some intersection along it has the minimal
non-negative `t` and that `t` is strictly below the distance to the light
(false in particular when no intersection has `t ≥ 0`). -/
theorem c7_is_shadowed (F : FloatOps) (w : World) (p : Point) :
    (w.light = none → is_shadowed F w p = true)
    ∧ ∀ l, w.light = some l →
        (is_shadowed F w p = true ↔
          ∃ i ∈ Ray.when_intersect_world F ⟨p, (l.position - p).normalize F⟩ w,
            0 ≤ i.t
            ∧ (∀ j ∈ Ray.when_intersect_world F ⟨p, (l.position - p).normalize F⟩ w,
                0 ≤ j.t → i.t ≤ j.t)
            ∧ i.t < (l.position - p).magnitude F) := by
  constructor
  · intro h
    simp [is_shadowed, h]
  · intro l hl
    have hspec := hit_foldl_spec
      (Ray.when_intersect_world F ⟨p, (l.position - p).normalize F⟩ w) none
      (by intro y hy; cases hy)
    simp only [is_shadowed, hl]
    cases hh : hit (Ray.when_intersect_world F ⟨p, (l.position - p).normalize F⟩ w) with
    | none =>
        simp only [hh]
        constructor
        · intro h
          cases h
        · rintro ⟨i, hi, hnn, -, -⟩
          exact absurd ((hspec.1 hh).2 i hi) (not_lt.mpr hnn)
    | some i0 =>
        obtain ⟨h0, hmem, hmin, -⟩ := hspec.2 i0 hh
        rcases hmem with h' | h'
        · cases h'
        simp only [hh, decide_eq_true_eq]
        constructor
        · intro hlt
          exact ⟨i0, h', h0, hmin, hlt⟩
        · rintro ⟨i, hi, hnn, -, hlt⟩
          exact lt_of_le_of_lt (hmin i hi hnn) hlt

/-- Witness for C7: a world without light is always shadowed; in a world
with a light but no objects the shadow-ray scan is empty, matching the
characterization. -/
theorem c7_is_shadowed_witness :
    is_shadowed F0 sampleWorld Point.origin = true
    ∧ ((is_shadowed F0 litWorld Point.origin = true) ↔
        ∃ i ∈ Ray.when_intersect_world F0
            ⟨Point.origin,
             ((litWorld.light.getD ⟨Point.origin, Color.black⟩).position
                 - Point.origin).normalize F0⟩
            litWorld,
          0 ≤ i.t
          ∧ (∀ j ∈ Ray.when_intersect_world F0
              ⟨Point.origin,
               ((litWorld.light.getD ⟨Point.origin, Color.black⟩).position
                   - Point.origin).normalize F0⟩
              litWorld,
              0 ≤ j.t → i.t ≤ j.t)
          ∧ i.t < ((litWorld.light.getD ⟨Point.origin, Color.black⟩).position
              - Point.origin).magnitude F0) :=
  ⟨(c7_is_shadowed F0 sampleWorld Point.origin).1 rfl,
   (c7_is_shadowed F0 litWorld Point.origin).2
     (litWorld.light.getD ⟨Point.origin, Color.black⟩) rfl⟩

/-! ### The matrix inverse is a genuine inverse (claim C9)

The cofactor machinery of `matrix.rs` is related to Mathlib's determinant
and adjugate, giving `M · M⁻¹ = I` for every invertible `M`. -/

/-- The 2×2 determinant of `matrix.rs` is the determinant. -/
lemma det2_eq (A : M2) : det2 A = A.det := by
  rw [Matrix.det_fin_two]
  rfl

/-- The 3×3 cofactor-expansion determinant of `matrix.rs` is the
determinant. -/
lemma det3_eq (A : M3) : det3 A = A.det := by
  rw [Matrix.det_succ_row_zero, Fin.sum_univ_three]
  simp only [det3, cof3, sub3, det2_eq, Fin.succAbove_zero,
    show ((0 : Fin 3) : ℕ) = 0 from rfl, show ((1 : Fin 3) : ℕ) = 1 from rfl,
    show ((2 : Fin 3) : ℕ) = 2 from rfl]
  norm_num
  try ring

/-- The 4×4 cofactor-expansion determinant of `matrix.rs` is the
determinant. -/
lemma det4_eq (A : M4) : det4 A = A.det := by
  rw [Matrix.det_succ_row_zero, Fin.sum_univ_four]
  simp only [det4, cof4, sub4, det3_eq, Fin.succAbove_zero,
    show ((0 : Fin 4) : ℕ) = 0 from rfl, show ((1 : Fin 4) : ℕ) = 1 from rfl,
    show ((2 : Fin 4) : ℕ) = 2 from rfl, show ((3 : Fin 4) : ℕ) = 3 from rfl]
  norm_num
  try ring

/-- The 4×4 cofactor of `matrix.rs` is the corresponding adjugate entry. -/
lemma cof4_adjugate (A : M4) (i j : Fin 4) : cof4 A i j = A.adjugate j i := by
  rw [Matrix.adjugate_fin_succ_eq_det_submatrix]
  unfold cof4 sub4
  rw [det3_eq]
  rcases Nat.even_or_odd (i.val + j.val) with he | ho
  · rw [if_pos (Nat.even_iff.mp he), he.neg_one_pow, one_mul]
  · rw [if_neg (by rw [Nat.odd_iff.mp ho]; exact one_ne_zero), ho.neg_one_pow]
    ring

/-- The inverse matrix built by `Matrix::<4,4>::inverse` is the adjugate
scaled by the inverse determinant. -/
lemma inv4_smul (A : M4) : inv4 A = (det4 A)⁻¹ • A.adjugate := by
  funext p q
  show cof4 A q p / det4 A = ((det4 A)⁻¹ • A.adjugate) p q
  rw [Matrix.smul_apply, cof4_adjugate, smul_eq_mul, div_eq_inv_mul]

/-- The unrolled 4×4 multiplication of `matrix.rs` is matrix
multiplication. -/
lemma matMul4_eq (A B : M4) : matMul4 A B = A * B := by
  funext i j
  rw [Matrix.mul_apply, Fin.sum_univ_four]
  rfl

/-- `Matrix::<K,K>::ident` is the identity matrix. -/
lemma ident4_eq : ident4 = (1 : M4) := by
  funext i j
  rw [Matrix.one_apply]
  rfl

/-- **C9** — `Tr::inverse` (`transform.rs:129-131`,
`matrix.rs:133-145`) is partial at the public interface: on a transform
whose matrix has determinant 0 it unwraps the `Err(Uninvertible)` of
`Matrix::inverse` and panics (modelled by `none`) instead of propagating the
error, while on a non-zero determinant it returns a transform whose matrix
is a genuine two-sided matrix inverse. -/
theorem c9_tr_inverse (t : Tr) :
    (det4 t.matrix = 0 → t.inverse = none)
    ∧ (det4 t.matrix ≠ 0 → ∃ t2, t.inverse = some t2
        ∧ matMul4 t.matrix t2.matrix = ident4
        ∧ matMul4 t2.matrix t.matrix = ident4) := by
  constructor
  · intro h
    simp [Tr.inverse, inverse4, h]
  · intro h
    refine ⟨⟨inv4 t.matrix⟩, ?_, ?_, ?_⟩
    · simp [Tr.inverse, inverse4, h]
    · rw [matMul4_eq, inv4_smul, ident4_eq, mul_smul_comm, Matrix.mul_adjugate, ← det4_eq,
        smul_smul, inv_mul_cancel₀ h, one_smul]
    · rw [matMul4_eq, inv4_smul, ident4_eq, Matrix.smul_mul, Matrix.adjugate_mul, ← det4_eq,
        smul_smul, inv_mul_cancel₀ h, one_smul]

/-- Witness for C9: the transform built with `scale(0, 0, 0)` has a
singular matrix, so `Tr::inverse` panics on it; the identity transform is
inverted to a two-sided inverse. -/
theorem c9_tr_inverse_witness :
    (Tr.new.scale 0 0 0).inverse = none
    ∧ ∃ t2, Tr.default.inverse = some t2
        ∧ matMul4 Tr.default.matrix t2.matrix = ident4
        ∧ matMul4 t2.matrix Tr.default.matrix = ident4 := by
  constructor
  · refine (c9_tr_inverse _).1 ?_
    show det4 (matMul4 (scaling 0 0 0) Tr.new.matrix) = 0
    rw [det4_eq, matMul4_eq]
    show ((scaling 0 0 0) * ident4).det = 0
    rw [ident4_eq, mul_one, Matrix.det_succ_row_zero, Fin.sum_univ_four]
    simp [scaling]
  · refine (c9_tr_inverse Tr.default).2 ?_
    show det4 ident4 ≠ 0
    rw [det4_eq, ident4_eq, Matrix.det_one]
    exact one_ne_zero

/-! ### Termination of the recursive shading (claim C4)

Helper lemmas evaluating the mutually-reflective-planes scenario of
`light.rs` step by step, establishing the fixed bounce ray and the
per-bounce color recurrence. -/

lemma matMul4_ident_right (A : M4) : matMul4 A ident4 = A := by
  rw [matMul4_eq, ident4_eq, mul_one]

lemma inv4_eq_of (A B : M4) (h : A * B = 1) : inv4 A = B := by
  have hBinv : A⁻¹ = B := Matrix.inv_eq_right_inv h
  rw [inv4_smul, det4_eq, ← Ring.inverse_eq_inv, ← Matrix.inv_def]
  exact hBinv

lemma tr_inv_lower : Tr.inv (Tr.new.translate 0 (-1) 0) = ⟨translation 0 1 0⟩ := by
  have hmul : translation 0 (-1) 0 * translation 0 1 0 = 1 := by
    ext i j
    fin_cases i <;> fin_cases j <;>
      norm_num [translation, Matrix.mul_apply, Fin.sum_univ_four, Matrix.one_apply,
        Matrix.cons_val_zero, Matrix.cons_val_one, Matrix.cons_val_two, Matrix.cons_val_three,
        Matrix.head_cons, Matrix.tail_cons, Matrix.vecHead, Matrix.vecTail, Function.comp,
        Fin.ext_iff]
  show Tr.mk (inv4 (matMul4 (translation 0 (-1) 0) Tr.new.matrix)) = _
  rw [show Tr.new.matrix = ident4 from rfl, matMul4_ident_right]
  exact congrArg Tr.mk (inv4_eq_of _ _ hmul)

lemma tr_inv_upper : Tr.inv (Tr.new.translate 0 1 0) = ⟨translation 0 (-1) 0⟩ := by
  have hmul : translation 0 1 0 * translation 0 (-1) 0 = 1 := by
    ext i j
    fin_cases i <;> fin_cases j <;>
      norm_num [translation, Matrix.mul_apply, Fin.sum_univ_four, Matrix.one_apply,
        Matrix.cons_val_zero, Matrix.cons_val_one, Matrix.cons_val_two, Matrix.cons_val_three,
        Matrix.head_cons, Matrix.tail_cons, Matrix.vecHead, Matrix.vecTail, Function.comp,
        Fin.ext_iff]
  show Tr.mk (inv4 (matMul4 (translation 0 1 0) Tr.new.matrix)) = _
  rw [show Tr.new.matrix = ident4 from rfl, matMul4_ident_right]
  exact congrArg Tr.mk (inv4_eq_of _ _ hmul)

lemma vadd_def (a b : Vector) : a + b = ⟨a.x + b.x, a.y + b.y, a.z + b.z⟩ := rfl
lemma vsub_def (a b : Vector) : a - b = ⟨a.x - b.x, a.y - b.y, a.z - b.z⟩ := rfl
lemma vneg_def (a : Vector) : -a = ⟨0 - a.x, 0 - a.y, 0 - a.z⟩ := rfl
lemma vsmul_def (a : Vector) (s : ℚ) : a * s = ⟨a.x * s, a.y * s, a.z * s⟩ := rfl
lemma svmul_def (s : ℚ) (a : Vector) : s * a = ⟨a.x * s, a.y * s, a.z * s⟩ := rfl
lemma pvadd_def (p : Point) (v : Vector) : p + v = ⟨p.x + v.x, p.y + v.y, p.z + v.z⟩ := rfl
lemma ppsub_def (p q : Point) : p - q = (⟨p.x - q.x, p.y - q.y, p.z - q.z⟩ : Vector) := rfl
lemma pvsub_def (p : Point) (v : Vector) : p - v = (⟨p.x - v.x, p.y - v.y, p.z - v.z⟩ : Point) := rfl
lemma cadd_def (a b : Color) : a + b = ⟨a.r + b.r, a.g + b.g, a.b + b.b⟩ := rfl
lemma csub_def (a b : Color) : a - b = ⟨a.r - b.r, a.g - b.g, a.b - b.b⟩ := rfl
lemma csmul_def (c : Color) (s : ℚ) : c * s = ⟨c.r * s, c.g * s, c.b * s⟩ := rfl
lemma cmul_def (a b : Color) : a * b = ⟨a.r * b.r, a.g * b.g, a.b * b.b⟩ := rfl

lemma isect_lower_mutual :
    Object.intersect_with F0 lowerPlane mutualRay = [⟨-1, lowerPlane⟩] := by
  rw [Object.intersect_with, show lowerPlane.transform = Tr.new.translate 0 (-1) 0 from rfl,
    tr_inv_lower]
  norm_num [Object.local_intersect_with, Ray.with_transform, mulPoint, mulVector, translation,
    mutualRay, EPSILON, lowerPlane, upperPlane, Point.origin, Matrix.cons_val_zero, Matrix.cons_val_one, Matrix.cons_val_two,
    Matrix.cons_val_three, Matrix.head_cons, Matrix.tail_cons, Matrix.vecHead, Matrix.vecTail,
    Function.comp]

lemma isect_upper_mutual :
    Object.intersect_with F0 upperPlane mutualRay = [⟨1, upperPlane⟩] := by
  rw [Object.intersect_with, show upperPlane.transform = Tr.new.translate 0 1 0 from rfl,
    tr_inv_upper]
  norm_num [Object.local_intersect_with, Ray.with_transform, mulPoint, mulVector, translation,
    mutualRay, EPSILON, lowerPlane, upperPlane, Point.origin, Matrix.cons_val_zero, Matrix.cons_val_one, Matrix.cons_val_two,
    Matrix.cons_val_three, Matrix.head_cons, Matrix.tail_cons, Matrix.vecHead, Matrix.vecTail,
    Function.comp]

lemma isect_lower_fix :
    Object.intersect_with F0 lowerPlane ⟨⟨0, 1, 0⟩, ⟨0, 1, 0⟩⟩ = [⟨-2, lowerPlane⟩] := by
  rw [Object.intersect_with, show lowerPlane.transform = Tr.new.translate 0 (-1) 0 from rfl,
    tr_inv_lower]
  norm_num [Object.local_intersect_with, Ray.with_transform, mulPoint, mulVector, translation,
    EPSILON, lowerPlane, upperPlane, Point.origin, Matrix.cons_val_zero, Matrix.cons_val_one, Matrix.cons_val_two,
    Matrix.cons_val_three, Matrix.head_cons, Matrix.tail_cons, Matrix.vecHead, Matrix.vecTail,
    Function.comp]

lemma isect_upper_fix :
    Object.intersect_with F0 upperPlane ⟨⟨0, 1, 0⟩, ⟨0, 1, 0⟩⟩ = [⟨0, upperPlane⟩] := by
  rw [Object.intersect_with, show upperPlane.transform = Tr.new.translate 0 1 0 from rfl,
    tr_inv_upper]
  norm_num [Object.local_intersect_with, Ray.with_transform, mulPoint, mulVector, translation,
    EPSILON, lowerPlane, upperPlane, Point.origin, Matrix.cons_val_zero, Matrix.cons_val_one, Matrix.cons_val_two,
    Matrix.cons_val_three, Matrix.head_cons, Matrix.tail_cons, Matrix.vecHead, Matrix.vecTail,
    Function.comp]

lemma wiw_mutual :
    Ray.when_intersect_world F0 mutualRay mutualWorld
      = [⟨-1, lowerPlane⟩, ⟨1, upperPlane⟩] := by
  rw [Ray.when_intersect_world]
  rw [show mutualWorld.objects = [lowerPlane, upperPlane] from rfl]
  rw [List.map_cons, List.map_cons, List.map_nil, isect_lower_mutual, isect_upper_mutual]
  norm_num [List.insertionSort, List.orderedInsert, tLE]

lemma wiw_fix :
    Ray.when_intersect_world F0 ⟨⟨0, 1, 0⟩, ⟨0, 1, 0⟩⟩ mutualWorld
      = [⟨-2, lowerPlane⟩, ⟨0, upperPlane⟩] := by
  rw [Ray.when_intersect_world]
  rw [show mutualWorld.objects = [lowerPlane, upperPlane] from rfl]
  rw [List.map_cons, List.map_cons, List.map_nil, isect_lower_fix, isect_upper_fix]
  norm_num [List.insertionSort, List.orderedInsert, tLE]

lemma hit_mutual : hit [(⟨-1, lowerPlane⟩ : Intersection), ⟨1, upperPlane⟩] = some ⟨1, upperPlane⟩ := by
  norm_num [hit, hitStep]

lemma hit_fix : hit [(⟨-2, lowerPlane⟩ : Intersection), ⟨0, upperPlane⟩] = some ⟨0, upperPlane⟩ := by
  norm_num [hit, hitStep]

lemma cof3_adjugate (A : M3) (i j : Fin 3) : cof3 A i j = A.adjugate j i := by
  rw [Matrix.adjugate_fin_succ_eq_det_submatrix]
  unfold cof3 sub3
  rw [det2_eq]
  rcases Nat.even_or_odd (i.val + j.val) with he | ho
  · rw [if_pos (Nat.even_iff.mp he), he.neg_one_pow, one_mul]
  · rw [if_neg (by rw [Nat.odd_iff.mp ho]; exact one_ne_zero), ho.neg_one_pow]
    ring

lemma inv3_smul (A : M3) : inv3 A = (det3 A)⁻¹ • A.adjugate := by
  funext p q
  show cof3 A q p / det3 A = ((det3 A)⁻¹ • A.adjugate) p q
  rw [Matrix.smul_apply, cof3_adjugate, smul_eq_mul, div_eq_inv_mul]

lemma inv3_eq_of (A B : M3) (h : A * B = 1) : inv3 A = B := by
  have hBinv : A⁻¹ = B := Matrix.inv_eq_right_inv h
  rw [inv3_smul, det3_eq, ← Ring.inverse_eq_inv, ← Matrix.inv_def]
  exact hBinv

lemma inv3_one : inv3 (1 : M3) = 1 := inv3_eq_of 1 1 (one_mul 1)

lemma transpose3_one : transpose3 (1 : M3) = 1 := by
  funext i j
  simp [transpose3, Matrix.one_apply, eq_comm]

lemma sub4_translation (x y z : ℚ) : sub4 (translation x y z) 3 3 = (1 : M3) := by
  funext a b
  rw [sub4]
  fin_cases a <;> fin_cases b <;>
    norm_num [translation, Matrix.submatrix_apply, Matrix.one_apply, Fin.succAbove, Fin.lt_def,
      Matrix.cons_val_zero, Matrix.cons_val_one, Matrix.cons_val_two, Matrix.cons_val_three,
      Matrix.head_cons, Matrix.tail_cons, Matrix.vecHead, Matrix.vecTail, Function.comp,
      Fin.ext_iff, Fin.coe_castSucc, Fin.val_succ, show ((3 : Fin 4) : ℕ) = 3 from rfl]

lemma normal_upper : Object.normal_at F0 upperPlane ⟨0, 1, 0⟩ = ⟨0, 0, 0⟩ := by
  rw [Object.normal_at, show upperPlane.transform = Tr.new.translate 0 1 0 from rfl, tr_inv_upper]
  rw [show (Tr.new.translate 0 1 0).matrix = matMul4 (translation 0 1 0) ident4 from rfl,
    matMul4_ident_right, sub4_translation, inv3_one, transpose3_one]
  norm_num [Object.local_normal_at, upperPlane, mulPoint, translation, Vector.normalize,
    Vector.magnitude, hypotQ, F0, Matrix.one_apply,
    Matrix.cons_val_zero, Matrix.cons_val_one, Matrix.cons_val_two, Matrix.cons_val_three,
    Matrix.head_cons, Matrix.tail_cons, Matrix.vecHead, Matrix.vecTail, Function.comp,
    Fin.ext_iff]

lemma prep_mutual :
    prepare_computations F0 ⟨1, upperPlane⟩ mutualRay
        (some [⟨-1, lowerPlane⟩, ⟨1, upperPlane⟩])
      = { t := 1, object := upperPlane, point := ⟨0, 1, 0⟩, eyev := ⟨0, -1, 0⟩,
          normalv := ⟨0, 0, 0⟩, inside := false, over_point := ⟨0, 1, 0⟩,
          under_point := ⟨0, 1, 0⟩, reflectv := ⟨0, 1, 0⟩, n1 := 1, n2 := 1 } := by
  norm_num [prepare_computations, Ray.position_at, mutualRay, Point.origin, svmul_def,
    vneg_def, pvadd_def, pvsub_def, vsmul_def, normal_upper, Vector.dot, EPSILON,
    Vector.reflect, vsub_def, n1n2Walk, containerTop, Intersection.mk.injEq,
    show lowerPlane.material.refractive_index = 1 from rfl,
    show upperPlane.material.refractive_index = 1 from rfl,
    show (lowerPlane = upperPlane) = False from by
      simp [lowerPlane, upperPlane, Object.mk.injEq],
    show (upperPlane = lowerPlane) = False from by
      simp [lowerPlane, upperPlane, Object.mk.injEq]]

lemma prep_fix :
    prepare_computations F0 ⟨0, upperPlane⟩ ⟨⟨0, 1, 0⟩, ⟨0, 1, 0⟩⟩
        (some [⟨-2, lowerPlane⟩, ⟨0, upperPlane⟩])
      = { t := 0, object := upperPlane, point := ⟨0, 1, 0⟩, eyev := ⟨0, -1, 0⟩,
          normalv := ⟨0, 0, 0⟩, inside := false, over_point := ⟨0, 1, 0⟩,
          under_point := ⟨0, 1, 0⟩, reflectv := ⟨0, 1, 0⟩, n1 := 1, n2 := 1 } := by
  norm_num [prepare_computations, Ray.position_at, Point.origin, svmul_def,
    vneg_def, pvadd_def, pvsub_def, vsmul_def, normal_upper, Vector.dot, EPSILON,
    Vector.reflect, vsub_def, n1n2Walk, containerTop, Intersection.mk.injEq,
    show lowerPlane.material.refractive_index = 1 from rfl,
    show upperPlane.material.refractive_index = 1 from rfl,
    show (lowerPlane = upperPlane) = False from by
      simp [lowerPlane, upperPlane, Object.mk.injEq],
    show (upperPlane = lowerPlane) = False from by
      simp [lowerPlane, upperPlane, Object.mk.injEq]]

lemma isect_lower_zerodir :
    Object.intersect_with F0 lowerPlane ⟨⟨0, 1, 0⟩, ⟨0, 0, 0⟩⟩ = [] := by
  rw [Object.intersect_with, show lowerPlane.transform = Tr.new.translate 0 (-1) 0 from rfl,
    tr_inv_lower]
  norm_num [Object.local_intersect_with, Ray.with_transform, mulPoint, mulVector, translation,
    EPSILON, lowerPlane, upperPlane, Point.origin, Matrix.cons_val_zero, Matrix.cons_val_one,
    Matrix.cons_val_two, Matrix.cons_val_three, Matrix.head_cons, Matrix.tail_cons,
    Matrix.vecHead, Matrix.vecTail, Function.comp]

lemma isect_upper_zerodir :
    Object.intersect_with F0 upperPlane ⟨⟨0, 1, 0⟩, ⟨0, 0, 0⟩⟩ = [] := by
  rw [Object.intersect_with, show upperPlane.transform = Tr.new.translate 0 1 0 from rfl,
    tr_inv_upper]
  norm_num [Object.local_intersect_with, Ray.with_transform, mulPoint, mulVector, translation,
    EPSILON, lowerPlane, upperPlane, Point.origin, Matrix.cons_val_zero, Matrix.cons_val_one,
    Matrix.cons_val_two, Matrix.cons_val_three, Matrix.head_cons, Matrix.tail_cons,
    Matrix.vecHead, Matrix.vecTail, Function.comp]

lemma shadow_top : is_shadowed F0 mutualWorld ⟨0, 1, 0⟩ = false := by
  rw [is_shadowed, show mutualWorld.light = some ⟨Point.origin, Color.white⟩ from rfl]
  have hn : Vector.normalize F0 (⟨0, -1, 0⟩ : Vector) = ⟨0, 0, 0⟩ := by
    norm_num [Vector.normalize, Vector.magnitude, hypotQ, F0]
  have hwiw : Ray.when_intersect_world F0 ⟨⟨0, 1, 0⟩, ⟨0, 0, 0⟩⟩ mutualWorld = [] := by
    rw [Ray.when_intersect_world, show mutualWorld.objects = [lowerPlane, upperPlane] from rfl,
      List.map_cons, List.map_cons, List.map_nil, isect_lower_zerodir, isect_upper_zerodir]
    rfl
  norm_num [Point.origin, ppsub_def, hn, hwiw, hit]

lemma lighting_top :
    lighting F0 upperPlane.material upperPlane ⟨Point.origin, Color.white⟩ ⟨0, 1, 0⟩
        ⟨0, -1, 0⟩ ⟨0, 0, 0⟩ false
      = ⟨1/10, 1/10, 1/10⟩ := by
  have hn : Vector.normalize F0 (⟨0, -1, 0⟩ : Vector) = ⟨0, 0, 0⟩ := by
    norm_num [Vector.normalize, Vector.magnitude, hypotQ, F0]
  norm_num [lighting, show upperPlane.material.pattern = none from rfl,
    show upperPlane.material.color = Color.new 1 1 1 from rfl,
    show upperPlane.material.ambient = 1/10 from rfl,
    show upperPlane.material.diffuse = 9/10 from rfl,
    show upperPlane.material.specular = 9/10 from rfl,
    show upperPlane.material.shininess = 200 from rfl,
    Color.new, Color.white, Color.black, cmul_def, csmul_def, cadd_def, Point.origin,
    ppsub_def, hn, Vector.dot, Vector.reflect, vneg_def, vsub_def, vsmul_def,
    show F0.powf 0 200 = 0 from rfl]

lemma cor_mutual_succ (n : Nat) :
    color_of_ray F0 mutualWorld mutualRay (n + 1)
      = (⟨1/10, 1/10, 1/10⟩ : Color) + color_of_ray F0 mutualWorld ⟨⟨0, 1, 0⟩, ⟨0, 1, 0⟩⟩ n * (1 : ℚ)
        + Color.black := by
  rw [show color_of_ray F0 mutualWorld mutualRay (n + 1)
      = colorOfRayGo F0 (fun r2 => color_of_ray F0 mutualWorld r2 n) mutualWorld mutualRay
          (n + 1) from rfl]
  rw [colorOfRayGo]
  rw [wiw_mutual]
  norm_num [hit_mutual, prep_mutual, shadeHitGo, reflectedGo, refractedGo, shadow_top,
    lighting_top, Nat.le_zero, csmul_def,
    show mutualWorld.light = some ⟨Point.origin, Color.white⟩ from rfl,
    show upperPlane.material.refractive_index = 1 from rfl,
    show upperPlane.material.transparency = 0 from rfl,
    show upperPlane.material.reflective = 1 from rfl]

lemma cor_fix_succ (n : Nat) :
    color_of_ray F0 mutualWorld ⟨⟨0, 1, 0⟩, ⟨0, 1, 0⟩⟩ (n + 1)
      = (⟨1/10, 1/10, 1/10⟩ : Color) + color_of_ray F0 mutualWorld ⟨⟨0, 1, 0⟩, ⟨0, 1, 0⟩⟩ n * (1 : ℚ)
        + Color.black := by
  rw [show color_of_ray F0 mutualWorld ⟨⟨0, 1, 0⟩, ⟨0, 1, 0⟩⟩ (n + 1)
      = colorOfRayGo F0 (fun r2 => color_of_ray F0 mutualWorld r2 n) mutualWorld
          ⟨⟨0, 1, 0⟩, ⟨0, 1, 0⟩⟩ (n + 1) from rfl]
  rw [colorOfRayGo]
  rw [wiw_fix]
  norm_num [hit_fix, prep_fix, shadeHitGo, reflectedGo, refractedGo, shadow_top,
    lighting_top, Nat.le_zero, csmul_def,
    show mutualWorld.light = some ⟨Point.origin, Color.white⟩ from rfl,
    show upperPlane.material.refractive_index = 1 from rfl,
    show upperPlane.material.transparency = 0 from rfl,
    show upperPlane.material.reflective = 1 from rfl]

lemma cor_fix_zero :
    color_of_ray F0 mutualWorld ⟨⟨0, 1, 0⟩, ⟨0, 1, 0⟩⟩ 0
      = (⟨1/10, 1/10, 1/10⟩ : Color) + Color.white + Color.black := by
  rw [show color_of_ray F0 mutualWorld ⟨⟨0, 1, 0⟩, ⟨0, 1, 0⟩⟩ 0
      = colorOfRayGo F0 (fun _ => Color.black) mutualWorld ⟨⟨0, 1, 0⟩, ⟨0, 1, 0⟩⟩ 0 from rfl]
  rw [colorOfRayGo]
  rw [wiw_fix]
  norm_num [hit_fix, prep_fix, shadeHitGo, reflectedGo, refractedGo, shadow_top,
    lighting_top,
    show mutualWorld.light = some ⟨Point.origin, Color.white⟩ from rfl,
    show upperPlane.material.refractive_index = 1 from rfl,
    show upperPlane.material.transparency = 0 from rfl,
    show upperPlane.material.reflective = 1 from rfl]

lemma cor_fix_formula (n : Nat) :
    color_of_ray F0 mutualWorld ⟨⟨0, 1, 0⟩, ⟨0, 1, 0⟩⟩ n
      = ⟨11/10 + (n : ℚ)/10, 11/10 + (n : ℚ)/10, 11/10 + (n : ℚ)/10⟩ := by
  induction n with
  | zero =>
      rw [cor_fix_zero]
      norm_num [cadd_def, Color.white, Color.black]
  | succ n ih =>
      rw [cor_fix_succ, ih]
      simp only [cadd_def, csmul_def, Color.black, Color.mk.injEq]
      push_cast
      refine ⟨by ring, by ring, by ring⟩


/-- **C4** — bounded recursion (`world.rs:75-84`, `light.rs:178-191`): the
mutually recursive `color_of_ray`/`shade_hit`/`reflected_color`/
`refracted_color` are total (they are definable by structural recursion on
the depth in this embedding) because every reflected or refracted sub-ray is
evaluated through `color_of_ray` at depth `limit − 1 < limit`; in
particular, the ray bouncing between the two mutually reflective parallel
planes of the `color_at_with_mutually_reflective_surfaces` scene terminates
with a concrete color at depth 8. -/
theorem c4_bounded_recursion :
    (∀ (F : FloatOps) (w : World) (c : IntersectionVals) (limit : Nat),
        limit ≠ 0 → c.object.material.reflective ≠ 0 →
          reflected_color F w c limit
            = color_of_ray F w ⟨c.over_point, c.reflectv⟩ (limit - 1)
                * c.object.material.reflective
          ∧ limit - 1 < limit)
    ∧ (∀ (F : FloatOps) (w : World) (c : IntersectionVals) (limit : Nat),
        limit ≠ 0 → c.object.material.transparency ≠ 0 →
        ¬ ((c.n1 / c.n2) * (c.n1 / c.n2)
            * (1 - c.eyev.dot c.normalv * c.eyev.dot c.normalv) > 1) →
          (∃ d : Vector,
            refracted_color F w c limit
              = color_of_ray F w ⟨c.under_point, d⟩ (limit - 1)
                  * c.object.material.transparency)
          ∧ limit - 1 < limit)
    ∧ color_of_ray F0 mutualWorld mutualRay 8 = ⟨19/10, 19/10, 19/10⟩ := by
  refine ⟨?_, ?_, ?_⟩
  · intro F w c limit h h2
    refine ⟨?_, by omega⟩
    simp [reflected_color, reflectedGo, Nat.le_zero, h, h2]
  · intro F w c limit h ht htir
    refine ⟨⟨c.normalv * ((c.n1 / c.n2) * c.eyev.dot c.normalv
        - F.sqrt (1 - (c.n1 / c.n2) * (c.n1 / c.n2)
            * (1 - c.eyev.dot c.normalv * c.eyev.dot c.normalv)))
        - c.eyev * (c.n1 / c.n2), ?_⟩, by omega⟩
    simp only [refracted_color, refractedGo]
    rw [if_neg (by simp [Nat.le_zero, h, ht]), if_neg htir]
  · rw [show (8 : Nat) = 7 + 1 from rfl, cor_mutual_succ, cor_fix_formula]
    norm_num [cadd_def, csmul_def, Color.black]

/-- Witness for C4: the decrement equations instantiated at concrete
prepared intersections, and the two-planes scenario's concrete color. -/
theorem c4_bounded_recursion_witness :
    (reflected_color F0 sampleWorld reflComps 5
        = color_of_ray F0 sampleWorld ⟨reflComps.over_point, reflComps.reflectv⟩ 4
            * reflComps.object.material.reflective
      ∧ 5 - 1 < 5)
    ∧ ((∃ d : Vector,
        refracted_color F0 sampleWorld refrComps 5
          = color_of_ray F0 sampleWorld ⟨refrComps.under_point, d⟩ 4
              * refrComps.object.material.transparency)
      ∧ 5 - 1 < 5)
    ∧ color_of_ray F0 mutualWorld mutualRay 8 = ⟨19/10, 19/10, 19/10⟩ :=
  ⟨c4_bounded_recursion.1 F0 sampleWorld reflComps 5 (by decide)
      (by norm_num [reflComps, sampleComps, sampleObject, Material.default]),
   c4_bounded_recursion.2.1 F0 sampleWorld refrComps 5 (by decide)
      (by norm_num [refrComps, sampleComps, sampleObject, Material.default])
      (by norm_num [refrComps, sampleComps, Vector.dot]),
   c4_bounded_recursion.2.2⟩

end Toytracer
